import Mathlib

/-!
Verification of the iptables-save parser of `Obmondo/iptables_exporter`
(`iptables/parser.go`), via a shallow embedding in Lean 4.

The embedding follows the Go source closely:
* `parseCounters` embeds `parseCounters` (regexp `^\[(\d+):(\d+)]$` plus
  `strconv.ParseUint(_, 10, 64)`),
* `ParserState`, `flush`, `handleNewChain`, `handleRule`, `handleLine` embed
  the `parser` struct and its methods,
* `ParseIptablesSave` embeds the top-level driver; the input stream is
  modelled as the list of lines successfully delivered by the `bufio.Scanner`
  together with a flag saying whether the scanner afterwards reported a read
  error,
* Go maps (`Tables`, `Table`) are modelled as association lists with
  replace-or-append insertion; a `nil` map is distinguished from an allocated
  empty one (as `Option`) where the distinction is observable (writing to a
  `nil` map panics in Go, which the embedding models by returning `none`).
-/

namespace IptablesExporter

/-- ASCII part of Go's `unicode.IsSpace`, used by `strings.TrimSpace` and
`strings.Fields` (space, \t, \n, \v, \f, \r). -/
def goIsSpace (c : Char) : Bool :=
  c = ' ' || c = '\t' || c = '\n' || c.toNat = 11 || c.toNat = 12 || c = '\r'

/-- Drop leading whitespace characters. -/
def dropLeading : List Char → List Char
  | [] => []
  | c :: cs => if goIsSpace c then dropLeading cs else c :: cs

/-- Embeds `strings.TrimSpace` on the character list of a line. -/
def goTrim (cs : List Char) : List Char :=
  ((dropLeading ((dropLeading cs).reverse)).reverse)

/-- Helper for `goFields`: split on whitespace runs, accumulating the current
field in reverse. -/
def fieldsAux : List Char → List Char → List String
  | [], acc => if acc.isEmpty then [] else [String.mk acc.reverse]
  | c :: cs, acc =>
    if goIsSpace c then
      if acc.isEmpty then fieldsAux cs [] else String.mk acc.reverse :: fieldsAux cs []
    else fieldsAux cs (c :: acc)

/-- Embeds `strings.Fields`: the maximal whitespace-free substrings, in order. -/
def goFields (s : String) : List String :=
  fieldsAux s.data []

/-- Embeds `strings.TrimPrefix(s, ":")`: strip a single leading colon. -/
def dropColon (s : String) : String :=
  match s.data with
  | ':' :: rest => String.mk rest
  | _ => s

/-- Embeds `strings.TrimPrefix(s, "*")`: strip a single leading star. -/
def dropStar (s : String) : String :=
  match s.data with
  | '*' :: rest => String.mk rest
  | _ => s

/-- Embeds `strings.Join(l, " ")`. -/
def joinSp : List String → String
  | [] => ""
  | [s] => s
  | s :: rest => s ++ " " ++ joinSp rest

/-- Greedy run of decimal digits (the `\d+` of the counters regexp):
returns the digit run and the remaining characters. -/
def takeDigits : List Char → List Char × List Char
  | [] => ([], [])
  | c :: cs =>
    if c.isDigit then
      let p := takeDigits cs
      (c :: p.1, p.2)
    else ([], c :: cs)

/-- Decimal value of a digit run (the value `strconv.ParseUint(_, 10, _)`
computes, before the bit-size check). -/
def digitsToNat (ds : List Char) : Nat :=
  ds.foldl (fun a c => a * 10 + (c.toNat - '0'.toNat)) 0

/-- `2^64`, the bound enforced by `strconv.ParseUint(_, 10, 64)`. -/
def U64 : Nat := 2 ^ 64

/-- Structural match of the anchored regexp `^\[(\d+):(\d+)]$`: a leading
`[`, a non-empty greedy digit run, a `:`, a second non-empty greedy digit
run, and a final `]` ending the token; on success returns the two captured
digit runs.  (Greedy maximal munch coincides with the regexp here because
`\d` matches neither `:` nor `]`.) -/
def matchCounters : List Char → Option (List Char × List Char)
  | '[' :: rest =>
    if (takeDigits rest).1 ≠ [] ∧ (takeDigits rest).2.head? = some ':' ∧
        (takeDigits (((takeDigits rest).2).drop 1)).1 ≠ [] ∧
        (takeDigits (((takeDigits rest).2).drop 1)).2 = [']'] then
      some ((takeDigits rest).1, (takeDigits (((takeDigits rest).2).drop 1)).1)
    else none
  | _ => none

/-- Embeds Go `parseCounters(field)`: the regexp match followed by two
`strconv.ParseUint(_, 10, 64)` calls; `none` is Go's `ok == false`
(no regexp match, or integer overflow of either number). -/
def parseCounters (field : String) : Option (Nat × Nat) :=
  match matchCounters field.data with
  | some (d1, d2) =>
    let packets := digitsToNat d1
    let bytes := digitsToNat d2
    if packets < U64 ∧ bytes < U64 then some (packets, bytes) else none
  | none => none

/-- One rule of a chain.  The repository file declaring the data types is not
among the provided sources; the field shapes (`Packets`, `Bytes` as `uint64`,
`Rule` as the joined flag string) are pinned by their uses in
`iptables/parser.go` and `iptables/parser_test.go`.  The `uint64` counters are
embedded as `Nat` values; `parseCounters` is the only producer and enforces
`< 2^64`. -/
structure Rule where
  Packets : Nat
  Bytes : Nat
  Rule : String
deriving DecidableEq, Repr

/-- One chain of a table (`Policy`, default-policy counters, rule slice);
field shapes pinned by `iptables/parser.go` and `iptables/parser_test.go`.
The zero value (empty policy, zero counters, empty slice) is what a Go map
read returns for an absent key. -/
structure Chain where
  Policy : String
  Packets : Nat
  Bytes : Nat
  Rules : List Rule
deriving DecidableEq, Repr

/-- Go `Table = map[string]Chain`, modelled as an association list with
replace-or-append insertion (`mapInsert`). -/
abbrev Table := List (String × Chain)

/-- Go `Tables = map[string]Table`. -/
abbrev Tables := List (String × Table)

/-- Go map assignment `m[k] = v`: replace the entry in place if the key is
present, append otherwise. -/
def mapInsert {α : Type} (m : List (String × α)) (k : String) (v : α) :
    List (String × α) :=
  match m with
  | [] => [(k, v)]
  | (k0, v0) :: rest =>
    if k0 = k then (k, v) :: rest else (k0, v0) :: mapInsert rest k v

/-- Go map read `m[k]` (the `some` case; an absent key reads as the zero
value at call sites). -/
def lookupMap {α : Type} : List (String × α) → String → Option α
  | [], _ => none
  | (k0, v0) :: rest, k => if k0 = k then some v0 else lookupMap rest k

/-- Embeds the `ParseError` struct (message, 1-based line number, trimmed
line text). -/
structure ParseError where
  Message : String
  LineNumber : Nat
  LineText : String
deriving DecidableEq, Repr

/-- Embeds the `parser` struct.  `result`/`currentTable` are `Option` so that
a Go `nil` map is distinguished from an allocated empty one; `err` is the
ordered list of joined errors (`errors.Join`), `[]` standing for `nil`. -/
structure ParserState where
  result : Option Tables
  currentTableName : String
  currentTable : Option Table
  line : Nat
  err : List ParseError
deriving DecidableEq, Repr

/-- The zero-valued `parser{}` the driver starts from. -/
def initState : ParserState :=
  { result := none, currentTableName := "", currentTable := none, line := 0, err := [] }

/-- Embeds `parser.flush`: when a table is open, commit the accumulated chain
mapping (a `nil` chain map commits as an empty table) into the lazily
allocated result and clear the open-table state; otherwise do nothing. -/
def flush (p : ParserState) : ParserState :=
  if p.currentTableName ≠ "" then
    { p with
      result := some (mapInsert (p.result.getD []) p.currentTableName (p.currentTable.getD []))
      currentTableName := ""
      currentTable := none }
  else p

/-- Embeds `parser.handleNewChain`. -/
def handleNewChain (p : ParserState) (line : String) : ParserState :=
  match goFields line with
  | [f0, f1, f2] =>
    match parseCounters f2 with
    | none => { p with err := p.err ++ [⟨"expected [packets:bytes]", p.line, line⟩] }
    | some (packets, bytes) =>
      { p with
        currentTable :=
          some (mapInsert (p.currentTable.getD []) (dropColon f0)
            { Policy := f1, Packets := packets, Bytes := bytes, Rules := [] }) }
  | _ => { p with err := p.err ++ [⟨"expected 3 fields", p.line, line⟩] }

/-- Modelled from the spec: the repository's `ruleParser` sub-parser (fields
`countersOk`, `packets`, `bytes`, `chain`, `flags` and methods
`handleToken`/`flush`) is used by `parser.handleRule` but its declaring file
is not among the provided sources.  This state follows spec §4.2
(RuleTokenizer).  `countersDone` records that the first token has been
consumed; `awaitingChain` that the previous token was the first honored `-A`
marker whose follower is still to come. -/
structure RuleTokenizerState where
  countersDone : Bool
  countersOk : Bool
  packets : Nat
  bytes : Nat
  chain : String
  awaitingChain : Bool
  flags : List String
deriving DecidableEq, Repr

/-- Modelled from the spec: the zero `ruleParser{}` value. -/
def ruleInit : RuleTokenizerState :=
  { countersDone := false, countersOk := false, packets := 0, bytes := 0
    chain := "", awaitingChain := false, flags := [] }

/-- Modelled from the spec (§4.2): `ruleParser.handleToken`.  The first token
must match the counter grammar — on mismatch counters stay unresolved but
scanning continues; the first `-A` token with its immediate follower is
captured as the target chain (later occurrences are ordinary flags); every
other token is appended to `flags` in order. -/
def ruleHandleToken (st : RuleTokenizerState) (token : String) : RuleTokenizerState :=
  if !st.countersDone then
    match parseCounters token with
    | some (packets, bytes) =>
      { st with countersDone := true, countersOk := true, packets := packets, bytes := bytes }
    | none => { st with countersDone := true, countersOk := false }
  else if st.awaitingChain then
    { st with chain := token, awaitingChain := false }
  else if token = "-A" && st.chain = "" then
    { st with awaitingChain := true }
  else
    { st with flags := st.flags ++ [token] }

/-- Modelled from the spec: `ruleParser.flush` finalizes the token scan; a
trailing `-A` with no follower leaves the chain uncaptured, so there is
nothing left to do. -/
def ruleFlush (st : RuleTokenizerState) : RuleTokenizerState := st

/-- The sub-parser run `parser.handleRule` performs on a rule line: fold
`handleToken` over the whitespace-split tokens, then `flush`. -/
def tokenizeLine (line : String) : RuleTokenizerState :=
  ruleFlush ((goFields line).foldl ruleHandleToken ruleInit)

/-- Embeds the dedup test of `parser.handleRule`
(`slices.ContainsFunc(chain.Rules, fun rule => rule.Rule == r.Rule)`). -/
def containsRule (rs : List Rule) (t : String) : Bool :=
  rs.any fun er => er.Rule == t

/-- The Go map read `p.currentTable[subParser.chain]`: the chain stored under
`name`, or the zero `Chain` when absent (also when the map is `nil`). -/
def chainFor (p : ParserState) (name : String) : Chain :=
  (lookupMap (p.currentTable.getD []) name).getD { Policy := "", Packets := 0, Bytes := 0, Rules := [] }

/-- Embeds `parser.handleRule`.  The final Go statement
`p.currentTable[subParser.chain] = chain` panics when `p.currentTable` is a
`nil` map ("assignment to entry in nil map"); the embedding returns `none`
there.  All earlier paths return normally. -/
def handleRule (p : ParserState) (line : String) : Option ParserState :=
  let sub := tokenizeLine line
  if !sub.countersOk then
    some { p with err := p.err ++ [⟨"expected [packets:bytes]", p.line, line⟩] }
  else if sub.chain = "" then
    some { p with err := p.err ++ [⟨"expected -A chain ...", p.line, line⟩] }
  else
    let r : Rule := { Packets := sub.packets, Bytes := sub.bytes, Rule := joinSp sub.flags }
    let chain := chainFor p sub.chain
    if containsRule chain.Rules r.Rule then
      some p
    else
      match p.currentTable with
      | none => none
      | some ct =>
        some { p with
          currentTable := some (mapInsert ct sub.chain { chain with Rules := chain.Rules ++ [r] }) }

/-- Embeds `parser.handleLine`: bump the line counter, trim, then dispatch on
the structural prefix in the source's order. -/
def handleLine (p : ParserState) (raw : String) : Option ParserState :=
  let p := { p with line := p.line + 1 }
  let cs := goTrim raw.data
  let line := String.mk cs
  if line = "" || cs.head? = some '#' then
    some p
  else if line = "COMMIT" then
    some (flush p)
  else if cs.head? = some '*' then
    some { flush p with currentTableName := dropStar line }
  else if cs.head? = some ':' then
    some (handleNewChain p line)
  else if cs.head? = some '[' then
    handleRule p line
  else
    some { p with err := p.err ++ [⟨"unhandled line", p.line, line⟩] }

/-- The scan loop of `ParseIptablesSave`: dispatch every delivered line in
order; `none` propagates a panic. -/
def runLines (p : ParserState) : List String → Option ParserState
  | [] => some p
  | l :: ls =>
    match handleLine p l with
    | none => none
    | some q => runLines q ls

/-- The two distinguishable error outcomes of `ParseIptablesSave`: the joined
parse errors (`parser.err`), or the scanner's read error (`scanner.Err()`). -/
inductive ParseFailure where
  | parse (errs : List ParseError)
  | read
deriving DecidableEq, Repr

/-- The `(Tables, error)` pair returned by `ParseIptablesSave`; `tables =
none` is a `nil` map. -/
structure ParseResult where
  tables : Option Tables
  error : Option ParseFailure
deriving DecidableEq, Repr

/-- Embeds `ParseIptablesSave`.  `lines` are the lines the scanner delivers,
`readErr` says whether `scanner.Err()` is non-nil afterwards.  After the scan
loop: final `flush`; a non-nil `parser.err` returns `(nil, parser.err)`;
otherwise a read error returns `(nil, err)`; otherwise `(parser.result, nil)`.
`none` models a panic escaping the function. -/
def ParseIptablesSave (lines : List String) (readErr : Bool) : Option ParseResult :=
  match runLines initState lines with
  | none => none
  | some p0 =>
    let p := flush p0
    if p.err ≠ [] then some { tables := none, error := some (.parse p.err) }
    else if readErr then some { tables := none, error := some .read }
    else some { tables := p.result, error := none }

/-! ### General lemmas about the embedded operations -/

theorem flush_err (p : ParserState) : (flush p).err = p.err := by
  unfold flush; split <;> rfl

theorem flush_name (p : ParserState) : (flush p).currentTableName = "" := by
  unfold flush; split
  · rfl
  · simp_all

theorem handleNewChain_result (p : ParserState) (l : String) :
    (handleNewChain p l).result = p.result := by
  unfold handleNewChain
  split
  · split <;> rfl
  · rfl

theorem handleNewChain_err (p : ParserState) (l : String) :
    ∃ s, (handleNewChain p l).err = p.err ++ s := by
  unfold handleNewChain
  split
  · split
    · exact ⟨_, rfl⟩
    · exact ⟨[], by simp⟩
  · exact ⟨_, rfl⟩

theorem handleRule_some (p : ParserState) (l : String) (q : ParserState)
    (h : handleRule p l = some q) :
    q.result = p.result ∧ ∃ s, q.err = p.err ++ s := by
  simp only [handleRule] at h
  split_ifs at h with h1 h2 h3
  · cases h; exact ⟨rfl, _, rfl⟩
  · cases h; exact ⟨rfl, _, rfl⟩
  · cases h; exact ⟨rfl, [], by simp⟩
  · cases hc : p.currentTable with
    | none => rw [hc] at h; cases h
    | some ct => rw [hc] at h; cases h; exact ⟨rfl, [], by simp⟩

theorem handleLine_some (p : ParserState) (l : String) (q : ParserState)
    (h : handleLine p l = some q) :
    ∃ s, q.err = p.err ++ s := by
  simp only [handleLine] at h
  split_ifs at h with h1 h2 h3 h4 h5
  · cases h; exact ⟨[], by simp⟩
  · cases h; exact ⟨[], by simp [flush_err]⟩
  · cases h; exact ⟨[], by simp [flush_err]⟩
  · cases h; simpa using handleNewChain_err _ _
  · simpa using (handleRule_some _ _ _ h).2
  · cases h; exact ⟨_, rfl⟩

theorem runLines_err_mono (ls : List String) (p q : ParserState)
    (h : runLines p ls = some q) : ∃ s, q.err = p.err ++ s := by
  induction ls generalizing p with
  | nil => cases h; exact ⟨[], by simp⟩
  | cons l ls ih =>
    unfold runLines at h
    cases hl : handleLine p l with
    | none => rw [hl] at h; cases h
    | some p1 =>
      rw [hl] at h
      obtain ⟨s2, hs2⟩ := ih p1 h
      obtain ⟨s1, hs1⟩ := handleLine_some p l p1 hl
      exact ⟨s1 ++ s2, by rw [hs2, hs1, List.append_assoc]⟩

theorem runLines_append (p : ParserState) (ls1 ls2 : List String) :
    runLines p (ls1 ++ ls2) = (runLines p ls1).bind fun q => runLines q ls2 := by
  induction ls1 generalizing p with
  | nil => simp [runLines]
  | cons l ls ih =>
    simp only [List.cons_append, runLines]
    cases handleLine p l with
    | none => rfl
    | some p1 => simpa using ih p1

theorem lookupMap_mapInsert_self {α : Type} (m : List (String × α)) (k : String) (v : α) :
    lookupMap (mapInsert m k v) k = some v := by
  induction m with
  | nil => simp [mapInsert, lookupMap]
  | cons e rest ih =>
    obtain ⟨k0, v0⟩ := e
    by_cases hk : k0 = k <;> simp [mapInsert, lookupMap, hk, ih]

theorem mem_mapInsert {α : Type} (m : List (String × α)) (k : String) (v : α)
    (e : String × α) (h : e ∈ mapInsert m k v) : e ∈ m ∨ e = (k, v) := by
  induction m with
  | nil => simp [mapInsert] at h; simp [h]
  | cons hd rest ih =>
    obtain ⟨k0, v0⟩ := hd
    by_cases hk : k0 = k
    · simp [mapInsert, hk] at h
      rcases h with h | h
      · right; simp [h]
      · left; simp [h]
    · simp [mapInsert, hk] at h
      rcases h with h | h
      · left; simp [h]
      · rcases ih h with h1 | h1
        · left; simp [h1]
        · right; exact h1

theorem lookupMap_mem {α : Type} (m : List (String × α)) (k : String) (v : α)
    (h : lookupMap m k = some v) : (k, v) ∈ m := by
  induction m with
  | nil => simp [lookupMap] at h
  | cons hd rest ih =>
    obtain ⟨k0, v0⟩ := hd
    by_cases hk : k0 = k
    · simp [lookupMap, hk] at h; simp [hk, h]
    · simp [lookupMap, hk] at h
      exact List.mem_cons_of_mem _ (ih h)

/-! ### Claim theorems -/

/-- C9: parsing is a deterministic function of the delivered input lines and
the read-error outcome: byte-identical invocations of `ParseIptablesSave`
yield equal results (same `Tables` value or same aggregate error); the parser
value is freshly zero-initialized per call, so there is no hidden state
between runs. -/
theorem C9_theorem (l1 l2 : List String) (e1 e2 : Bool)
    (h1 : l1 = l2) (h2 : e1 = e2) :
    ParseIptablesSave l1 e1 = ParseIptablesSave l2 e2 := by
  rw [h1, h2]

/-- Witness for C9 at a concrete input. -/
theorem C9_witness :
    ParseIptablesSave ["*filter", ":INPUT ACCEPT [10:500]"] false =
      ParseIptablesSave ["*filter", ":INPUT ACCEPT [10:500]"] false :=
  C9_theorem ["*filter", ":INPUT ACCEPT [10:500]"] ["*filter", ":INPUT ACCEPT [10:500]"]
    false false rfl rfl

/-- C5 (failing input): on `*filter` followed by a rule line naming a chain
while no chain header has been handled yet in the table, the currently open
table's chain map is still the `nil` zero value, and Go's
`p.currentTable[subParser.chain] = chain` in `handleRule` is an assignment to
an entry of a nil map — a runtime panic, modelled as `none`: the parse does
not return a value, contradicting the claimed crash-free auto-creation. -/
theorem C5_theorem :
    ParseIptablesSave ["*filter", "[1:2] -A INPUT -j ACCEPT"] false = none := by
  decide

/-- C3 (amended): when the rule tokenizer leaves counters unresolved,
`handleRule` reports only the malformed-counters error and returns — the
missing-target check is skipped, so at most one of the two errors is reported
per line (the missing-target error fires only when counters resolved). -/
theorem C3_theorem (p : ParserState) (l : String)
    (h : (tokenizeLine l).countersOk = false) :
    handleRule p l =
      some { p with err := p.err ++ [⟨"expected [packets:bytes]", p.line, l⟩] } := by
  simp [handleRule, h]

/-- Witness for C3 at a concrete rule line with malformed counters and no
`-A` pair. -/
theorem C3_witness :
    handleRule initState "[x] foo" =
      some { initState with err := [⟨"expected [packets:bytes]", 0, "[x] foo"⟩] } :=
  C3_theorem initState "[x] foo" (by decide)

/-- C3 (counterexample): a rule line whose leading counter token is malformed
and which lacks a `-A <chain>` pair yields exactly one joined error — the
counters error; the missing-target error ("expected -A chain ...") is absent,
refuting "both errors are reported for that single line". -/
theorem C3_counterexample :
    ParseIptablesSave ["[x] foo"] false =
      some { tables := none,
             error := some (.parse [⟨"expected [packets:bytes]", 1, "[x] foo"⟩]) } ∧
    (⟨"expected -A chain ...", 1, "[x] foo"⟩ : ParseError) ∉
      [(⟨"expected [packets:bytes]", 1, "[x] foo"⟩ : ParseError)] := by
  constructor
  · decide
  · decide

/-- C8: a chain-header line splitting into exactly 3 fields whose third field
parses as counters creates or overwrites the chain entry under the
colon-stripped name with the parsed policy and counters and an empty rule
slice; looking the name up afterwards yields exactly that fresh chain, so a
re-declaration discards previously accumulated rules. -/
theorem C8_theorem (p : ParserState) (l f0 f1 f2 : String) (pk bt : Nat)
    (hf : goFields l = [f0, f1, f2]) (hc : parseCounters f2 = some (pk, bt)) :
    handleNewChain p l =
      { p with currentTable := some (mapInsert (p.currentTable.getD []) (dropColon f0)
          { Policy := f1, Packets := pk, Bytes := bt, Rules := [] }) } ∧
    lookupMap (mapInsert (p.currentTable.getD []) (dropColon f0)
        { Policy := f1, Packets := pk, Bytes := bt, Rules := [] }) (dropColon f0) =
      some { Policy := f1, Packets := pk, Bytes := bt, Rules := [] } := by
  refine ⟨?_, lookupMap_mapInsert_self _ _ _⟩
  unfold handleNewChain
  rw [hf]
  dsimp only
  rw [hc]

/-- Witness for C8: re-declaring `INPUT` (which already holds a rule)
overwrites it with the freshly parsed chain and an empty rule slice. -/
theorem C8_witness :
    handleNewChain
        { result := none, currentTableName := "filter"
          currentTable := some [("INPUT", ⟨"DROP", 5, 6, [⟨1, 2, "-j X"⟩]⟩)]
          line := 3, err := [] }
        ":INPUT ACCEPT [10:500]" =
      { result := none, currentTableName := "filter"
        currentTable := some [("INPUT", ⟨"ACCEPT", 10, 500, []⟩)]
        line := 3, err := [] } ∧
    lookupMap [("INPUT", (⟨"ACCEPT", 10, 500, []⟩ : Chain))] "INPUT" =
      some ⟨"ACCEPT", 10, 500, []⟩ :=
  C8_theorem
    { result := none, currentTableName := "filter"
      currentTable := some [("INPUT", ⟨"DROP", 5, 6, [⟨1, 2, "-j X"⟩]⟩)]
      line := 3, err := [] }
    ":INPUT ACCEPT [10:500]" ":INPUT" "ACCEPT" "[10:500]" 10 500 (by decide) (by decide)

/-- C10 (amended): provided the scan completes without the nil-map fault,
whenever the scan accumulated at least one parse error, `ParseIptablesSave`
returns the aggregate parse error — the `parser.err` check precedes the
`scanner.Err()` check, so the result with a pending read error is identical
to the result without one, and the read error is never surfaced. -/
theorem C10_theorem (lines : List String) (st : ParserState)
    (h : runLines initState lines = some st) (he : st.err ≠ []) :
    ParseIptablesSave lines true =
      some { tables := none, error := some (.parse st.err) } ∧
    ParseIptablesSave lines true = ParseIptablesSave lines false := by
  have hmain : ∀ e, ParseIptablesSave lines e =
      some { tables := none, error := some (.parse st.err) } := by
    intro e
    unfold ParseIptablesSave
    rw [h]
    simp only [flush_err]
    rw [if_pos he]
  exact ⟨hmain true, by rw [hmain true, hmain false]⟩

/-- Witness for C10 at a concrete input with one unhandled line and a read
error. -/
theorem C10_witness :
    ParseIptablesSave ["oops"] true =
      some { tables := none, error := some (.parse [⟨"unhandled line", 1, "oops"⟩]) } ∧
    ParseIptablesSave ["oops"] true = ParseIptablesSave ["oops"] false :=
  C10_theorem ["oops"]
    { result := none, currentTableName := "", currentTable := none, line := 1
      err := [⟨"unhandled line", 1, "oops"⟩] }
    (by decide) (by decide)

/-- C10 (counterexample): an input with a malformed first line whose second
line triggers the nil-map panic, followed by a stream read error: the claimed
aggregate-parse-error return does not happen — the function panics and
returns nothing at all. -/
theorem C10_counterexample :
    ParseIptablesSave ["bad", "[3:4] -A B -j E"] true = none := by
  decide

/-- C1 (amended): provided the scan completes without the nil-map fault, if
the accumulated parse error is non-empty then `ParseIptablesSave` returns the
aggregate error together with a nil `Tables` (no partial success), and the
errors collected over a prefix of the input are preserved — later lines are
still dispatched and only append further errors. -/
theorem C1_theorem (ls1 ls2 : List String) (e : Bool) (p1 p2 : ParserState)
    (h1 : runLines initState ls1 = some p1)
    (h2 : runLines initState (ls1 ++ ls2) = some p2)
    (he : p2.err ≠ []) :
    ParseIptablesSave (ls1 ++ ls2) e =
      some { tables := none, error := some (.parse p2.err) } ∧
    ∃ s, p2.err = p1.err ++ s := by
  constructor
  · unfold ParseIptablesSave
    rw [h2]
    simp only [flush_err]
    rw [if_pos he]
  · have h3 : runLines p1 ls2 = some p2 := by
      have hap := runLines_append initState ls1 ls2
      rw [h2, h1] at hap
      exact hap.symm
    exact runLines_err_mono _ _ _ h3

/-- Witness for C1: two unhandled lines; the error of the first line is a
prefix of the aggregate error, and the aggregate is returned with nil
tables. -/
theorem C1_witness :
    ParseIptablesSave ["x", "y"] false =
      some { tables := none
             error := some (.parse [⟨"unhandled line", 1, "x"⟩, ⟨"unhandled line", 2, "y"⟩]) } ∧
    ∃ s, ([⟨"unhandled line", 1, "x"⟩, ⟨"unhandled line", 2, "y"⟩] : List ParseError) =
      [⟨"unhandled line", 1, "x"⟩] ++ s :=
  C1_theorem ["x"] ["y"] false
    { result := none, currentTableName := "", currentTable := none, line := 1
      err := [⟨"unhandled line", 1, "x"⟩] }
    { result := none, currentTableName := "", currentTable := none, line := 2
      err := [⟨"unhandled line", 1, "x"⟩, ⟨"unhandled line", 2, "y"⟩] }
    (by decide) (by decide) (by decide)

/-- C1 (counterexample): an input whose first line produces a parser-level
error but whose second line triggers the nil-map panic: `ParseIptablesSave`
does not return the aggregate error — it panics, and the second line is the
last one dispatched, refuting the unconditional claim. -/
theorem C1_counterexample :
    ParseIptablesSave ["x", "[1:2] -A A -j D"] false = none := by
  decide

/-- `flush` is a no-op when no table is open. -/
theorem flush_noop (p : ParserState) (h : p.currentTableName = "") : flush p = p := by
  simp [flush, h]

/-- C4 (amended): a line whose trimmed text begins with `*` flushes whatever
table state was pending and opens a table named by the star-stripped
remainder; whenever a table was previously open (non-empty pending name), the
flush clears the chain mapping, so the new table starts empty.  (When no
table was open, the flush is a no-op and a previously accumulated chain
mapping survives into the new table — see the counterexample.) -/
theorem C4_theorem (p : ParserState) (l : String) (rest : List Char)
    (h : goTrim l.data = '*' :: rest) :
    handleLine p l =
      some { flush { p with line := p.line + 1 } with
               currentTableName := dropStar (String.mk ('*' :: rest)) } ∧
    (p.currentTableName ≠ "" →
      (flush { p with line := p.line + 1 }).currentTable = none) := by
  constructor
  · have hne : ¬ (String.mk ('*' :: rest) = "") := by
      intro hx
      have hd := congrArg String.data hx
      simp at hd
    have hnc : ¬ (String.mk ('*' :: rest) = "COMMIT") := by
      intro hx
      have hd := congrArg String.data hx
      simp at hd
    have hsh : ¬ (('*' : Char) = '#') := by decide
    simp [handleLine, h, hne, hnc, hsh]
  · intro hname
    simp [flush, hname]

/-- Witness for C4: opening `*nat` while `filter` is pending commits `filter`
and starts `nat` with a cleared (nil) chain mapping. -/
theorem C4_witness :
    handleLine ⟨none, "filter", some [], 0, []⟩ "*nat" =
      some ⟨some [("filter", [])], "nat", none, 1, []⟩ ∧
    (flush ⟨none, "filter", some [], 1, []⟩).currentTable = none :=
  ⟨(C4_theorem ⟨none, "filter", some [], 0, []⟩ "*nat" ['n', 'a', 't'] (by decide)).1,
   (C4_theorem ⟨none, "filter", some [], 0, []⟩ "*nat" ['n', 'a', 't'] (by decide)).2
     (by decide)⟩

/-- C4 (counterexample): a chain header handled while no table is open is
retained by the no-op flush, so the chain `A`, recorded before the `*filter`
header, is visible in the table committed under the new name `filter` —
refuting "the newly opened table's chain mapping starts empty" in general. -/
theorem C4_counterexample :
    ParseIptablesSave [":A - [0:0]", "*filter"] false =
      some { tables := some [("filter", [("A", ⟨"-", 0, 0, []⟩)])], error := none } := by
  decide

/-- C6: commits of the open table into the result happen exactly at the flush
points: `flush` is a no-op when no table is open; a second `flush` directly
after a `flush` changes nothing (no double commit per open/close cycle);
`handleLine` leaves the committed result untouched on every line that is not
`COMMIT` and not a table header; and after the last line one final flush is
performed, which commits the still-open table under its pending name even if
no `COMMIT` preceded the end of the stream. -/
theorem C6_theorem :
    (∀ p : ParserState, p.currentTableName = "" → flush p = p) ∧
    (∀ p : ParserState, flush (flush p) = flush p) ∧
    (∀ (p q : ParserState) (l : String), handleLine p l = some q →
      String.mk (goTrim l.data) ≠ "COMMIT" → (goTrim l.data).head? ≠ some '*' →
      q.result = p.result) ∧
    (∀ (lines : List String) (st : ParserState),
      runLines initState lines = some st → st.err = [] →
      ParseIptablesSave lines false = some { tables := (flush st).result, error := none } ∧
      (st.currentTableName ≠ "" →
        (flush st).result =
          some (mapInsert (st.result.getD []) st.currentTableName
            (st.currentTable.getD [])))) := by
  refine ⟨flush_noop, fun p => flush_noop (flush p) (flush_name p), ?_, ?_⟩
  · intro p q l h hC hS
    simp only [handleLine] at h
    split_ifs at h with h1 h2 h3
    · cases h; rfl
    · cases h; exact handleNewChain_result _ _
    · exact (handleRule_some _ _ _ h).1
    · cases h; rfl
  · intro lines st h he
    constructor
    · unfold ParseIptablesSave
      rw [h]
      dsimp only
      have hne : ¬ ((flush st).err ≠ []) := by
        rw [flush_err]
        simp [he]
      rw [if_neg hne]
      simp
    · intro hn
      simp [flush, hn]

/-- Witness for C6: a table without a trailing `COMMIT` is still committed by
the end-of-stream flush. -/
theorem C6_witness :
    ParseIptablesSave ["*nat", ":A - [0:0]"] false =
      some { tables := some [("nat", [("A", ⟨"-", 0, 0, []⟩)])], error := none } :=
  (C6_theorem.2.2.2 ["*nat", ":A - [0:0]"]
    ⟨none, "nat", some [("A", ⟨"-", 0, 0, []⟩)], 2, []⟩ (by decide) rfl).1

/-! ### The per-chain rule-text uniqueness invariant (for C2) -/

/-- A chain's rule texts are pairwise distinct. -/
def chainOk (c : Chain) : Prop := (c.Rules.map Rule.Rule).Nodup

/-- Every chain of a table satisfies `chainOk`. -/
def tableOk (t : Table) : Prop := ∀ e ∈ t, chainOk e.2

/-- Every table of a result satisfies `tableOk`. -/
def tablesOk (ts : Tables) : Prop := ∀ e ∈ ts, tableOk e.2

/-- The parser invariant: both the committed result and the open table only
hold chains with pairwise distinct rule texts. -/
def stateOk (p : ParserState) : Prop :=
  tablesOk (p.result.getD []) ∧ tableOk (p.currentTable.getD [])

theorem tableOk_mapInsert (t : Table) (k : String) (c : Chain)
    (ht : tableOk t) (hc : chainOk c) : tableOk (mapInsert t k c) := by
  intro e he
  rcases mem_mapInsert t k c e he with h | h
  · exact ht e h
  · rw [h]
    exact hc

theorem chainFor_ok (p : ParserState) (name : String)
    (hp : tableOk (p.currentTable.getD [])) : chainOk (chainFor p name) := by
  unfold chainFor
  cases hl : lookupMap (p.currentTable.getD []) name with
  | none => simp [chainOk]
  | some c => simpa using hp _ (lookupMap_mem _ _ _ hl)

theorem containsRule_false (rs : List Rule) (t : String)
    (h : containsRule rs t = false) : t ∉ rs.map Rule.Rule := by
  intro hmem
  obtain ⟨r, hr, hrt⟩ := List.mem_map.mp hmem
  have : containsRule rs t = true := by
    unfold containsRule
    rw [List.any_eq_true]
    exact ⟨r, hr, by simp [hrt]⟩
  rw [h] at this
  cases this

theorem flush_ok (p : ParserState) (h : stateOk p) : stateOk (flush p) := by
  unfold flush
  split
  · refine ⟨?_, ?_⟩
    · intro e he
      rcases mem_mapInsert _ _ _ e he with h1 | h1
      · exact h.1 e h1
      · rw [h1]
        exact h.2
    · intro e he
      simp at he
  · exact h

theorem handleNewChain_ok (p : ParserState) (l : String) (h : stateOk p) :
    stateOk (handleNewChain p l) := by
  unfold handleNewChain
  split
  · split
    · exact h
    · exact ⟨h.1, tableOk_mapInsert _ _ _ h.2 (by simp [chainOk])⟩
  · exact h

theorem handleRule_ok (p : ParserState) (l : String) (q : ParserState)
    (hq : handleRule p l = some q) (h : stateOk p) : stateOk q := by
  simp only [handleRule] at hq
  split_ifs at hq with h1 h2 h3
  · cases hq; exact h
  · cases hq; exact h
  · cases hq; exact h
  · cases hc : p.currentTable with
    | none => rw [hc] at hq; cases hq
    | some ct =>
      rw [hc] at hq
      cases hq
      refine ⟨h.1, ?_⟩
      have hct : tableOk ct := by
        have := h.2
        rw [hc] at this
        simpa using this
      simp only [Option.getD_some]
      apply tableOk_mapInsert _ _ _ hct
      have hold : chainOk (chainFor p (tokenizeLine l).chain) := chainFor_ok p _ h.2
      have hnotin := containsRule_false _ _ (by simpa using h3)
      unfold chainOk at hold ⊢
      simp only [List.map_append, List.map_cons, List.map_nil]
      rw [List.nodup_append]
      refine ⟨hold, List.nodup_singleton _, ?_⟩
      intro x hx hx1
      simp at hx1
      rw [hx1] at hx
      exact hnotin hx

theorem handleLine_ok (p : ParserState) (l : String) (q : ParserState)
    (hq : handleLine p l = some q) (h : stateOk p) : stateOk q := by
  have hbump : stateOk { p with line := p.line + 1 } := h
  simp only [handleLine] at hq
  split_ifs at hq with h1 h2 h3 h4 h5
  · cases hq; exact hbump
  · cases hq; exact flush_ok _ hbump
  · cases hq
    have := flush_ok _ hbump
    exact ⟨this.1, this.2⟩
  · cases hq; exact handleNewChain_ok _ _ hbump
  · exact handleRule_ok _ _ _ hq hbump
  · cases hq; exact hbump

theorem runLines_ok (ls : List String) (p q : ParserState)
    (hq : runLines p ls = some q) (h : stateOk p) : stateOk q := by
  induction ls generalizing p with
  | nil => cases hq; exact h
  | cons l ls ih =>
    unfold runLines at hq
    cases hl : handleLine p l with
    | none => rw [hl] at hq; cases hq
    | some p1 =>
      rw [hl] at hq
      exact ih p1 hq (handleLine_ok p l p1 hl h)

theorem initState_ok : stateOk initState := by
  constructor <;> intro e he <;> simp [initState] at he

/-- C2: in any `Tables` value `ParseIptablesSave` returns, every chain's
rule texts are pairwise distinct; a candidate rule whose canonical text
already occurs in the target chain is discarded with the whole parser state
(including the existing entry's counters) left unchanged; and a candidate
with a fresh text is appended at the end of the chain's rule slice, so rules
keep first-seen order and the first occurrence's counters are retained. -/
theorem C2_theorem :
    (∀ (lines : List String) (e : Bool) (ts : Tables),
      ParseIptablesSave lines e = some { tables := some ts, error := none } →
      ∀ t ∈ ts, ∀ c ∈ t.2, ((c.2.Rules.map Rule.Rule).Nodup)) ∧
    (∀ (p : ParserState) (l : String),
      (tokenizeLine l).countersOk = true → (tokenizeLine l).chain ≠ "" →
      containsRule (chainFor p (tokenizeLine l).chain).Rules
        (joinSp (tokenizeLine l).flags) = true →
      handleRule p l = some p) ∧
    (∀ (p : ParserState) (l : String) (ct : Table), p.currentTable = some ct →
      (tokenizeLine l).countersOk = true → (tokenizeLine l).chain ≠ "" →
      containsRule (chainFor p (tokenizeLine l).chain).Rules
        (joinSp (tokenizeLine l).flags) = false →
      handleRule p l = some { p with
        currentTable := some (mapInsert ct (tokenizeLine l).chain
          { chainFor p (tokenizeLine l).chain with
              Rules := (chainFor p (tokenizeLine l).chain).Rules ++
                [{ Packets := (tokenizeLine l).packets, Bytes := (tokenizeLine l).bytes,
                   Rule := joinSp (tokenizeLine l).flags }] }) }) := by
  refine ⟨?_, ?_, ?_⟩
  · intro lines e ts h t ht c hc
    unfold ParseIptablesSave at h
    cases hr : runLines initState lines with
    | none => rw [hr] at h; cases h
    | some p0 =>
      rw [hr] at h
      dsimp only at h
      have hok : stateOk (flush p0) := flush_ok _ (runLines_ok _ _ _ hr initState_ok)
      split_ifs at h with hcond hcond2
      · cases h
      · simp at h
      · have hres : (flush p0).result = some ts := by
          injection h with h1
          exact congrArg ParseResult.tables h1
        have hts : tablesOk ts := by
          have := hok.1
          rw [hres] at this
          simpa using this
        exact hts t ht c hc
  · intro p l hco hch hdup
    simp [handleRule, hco, hch, hdup]
  · intro p l ct hct hco hch hdup
    simp [handleRule, hco, hch, hdup, hct]

/-- Witness for C2: a duplicate rule line with different counters collapses
to the single first-seen entry, and the returned chain's texts are nodup. -/
theorem C2_witness :
    ∀ t ∈ [("filter",
        [("INPUT", (⟨"ACCEPT", 10, 500, [⟨10, 500, "-j ACCEPT"⟩]⟩ : Chain))])],
      ∀ c ∈ t.2, (((c.2 : Chain).Rules.map Rule.Rule).Nodup) :=
  C2_theorem.1
    ["*filter", ":INPUT ACCEPT [10:500]", "[10:500] -A INPUT -j ACCEPT",
     "[99:9999] -A INPUT -j ACCEPT", "COMMIT"] false
    [("filter", [("INPUT", ⟨"ACCEPT", 10, 500, [⟨10, 500, "-j ACCEPT"⟩]⟩)])]
    (by decide)

/-! ### The counter-token grammar (for C7) -/

/-- The spec-side characterization of a valid counter token, written from the
spec's words (§3, §7): the literal form `[<packets>:<bytes>]` — `[`, a
non-empty digit run, `:`, a non-empty digit run, `]` — with both numbers
representable as unsigned 64-bit integers (no overflow).  It is compared
against the source-derived `parseCounters`. -/
def counterTokenSpec (s : String) : Prop :=
  ∃ d1 d2 : List Char, d1 ≠ [] ∧ d2 ≠ [] ∧
    (∀ c ∈ d1, c.isDigit = true) ∧ (∀ c ∈ d2, c.isDigit = true) ∧
    s.data = '[' :: (d1 ++ ':' :: (d2 ++ [']'])) ∧
    digitsToNat d1 < U64 ∧ digitsToNat d2 < U64

theorem takeDigits_eq (cs : List Char) :
    (takeDigits cs).1 ++ (takeDigits cs).2 = cs ∧
    (∀ c ∈ (takeDigits cs).1, c.isDigit = true) ∧
    (∀ c r, (takeDigits cs).2 = c :: r → c.isDigit = false) := by
  induction cs with
  | nil => simp [takeDigits]
  | cons c cs ih =>
    by_cases hd : c.isDigit
    · simp only [takeDigits, hd, if_true]
      refine ⟨by simp [ih.1], ?_, ih.2.2⟩
      intro x hx
      rcases List.mem_cons.mp hx with h | h
      · rw [h]; exact hd
      · exact ih.2.1 x h
    · simp only [takeDigits, hd, if_false]
      refine ⟨by simp, by simp, ?_⟩
      intro x r hxr
      injection hxr with h1 h2
      rw [← h1]
      exact Bool.not_eq_true _ ▸ (by simpa using hd)

theorem takeDigits_exact (ds rest : List Char)
    (hds : ∀ c ∈ ds, c.isDigit = true)
    (hrest : ∀ c r, rest = c :: r → c.isDigit = false) :
    takeDigits (ds ++ rest) = (ds, rest) := by
  induction ds with
  | nil =>
    cases rest with
    | nil => simp [takeDigits]
    | cons c r =>
      have := hrest c r rfl
      simp [takeDigits, this]
  | cons d ds ih =>
    have hd : d.isDigit = true := hds d (by simp)
    have := ih (fun c hc => hds c (by simp [hc]))
    simp [takeDigits, hd, this]

theorem matchCounters_sound (cs d1 d2 : List Char)
    (h : matchCounters cs = some (d1, d2)) :
    cs = '[' :: (d1 ++ ':' :: (d2 ++ [']'])) ∧ d1 ≠ [] ∧ d2 ≠ [] ∧
    (∀ c ∈ d1, c.isDigit = true) ∧ (∀ c ∈ d2, c.isDigit = true) := by
  unfold matchCounters at h
  split at h
  · next rest =>
    split_ifs at h with hcond
    · obtain ⟨h1, h2, h3, h4⟩ := hcond
      injection h with hpair
      have he1 : (takeDigits rest).1 = d1 := congrArg Prod.fst hpair
      have he2 : (takeDigits (((takeDigits rest).2).drop 1)).1 = d2 :=
        congrArg Prod.snd hpair
      have hr := takeDigits_eq rest
      cases ht : (takeDigits rest).2 with
      | nil => rw [ht] at h2; cases h2
      | cons a rr =>
        rw [ht] at h2
        have ha : a = ':' := by
          injection h2
        have hrr := takeDigits_eq rr
        have hdrop : ((takeDigits rest).2).drop 1 = rr := by
          rw [ht]
          rfl
        rw [hdrop] at he2 h3 h4
        refine ⟨?_, ?_, ?_, ?_, ?_⟩
        · have hrest : rest = d1 ++ ':' :: rr := by
            rw [← hr.1, ht, he1, ha]
          have hrr2 : rr = d2 ++ [']'] := by
            rw [← hrr.1, he2, h4]
          rw [hrest, hrr2]
        · rw [← he1]; exact h1
        · rw [← he2]; exact h3
        · rw [← he1]; exact hr.2.1
        · rw [← he2]; exact hrr.2.1
  · next => cases h

theorem matchCounters_complete (d1 d2 : List Char) (h1 : d1 ≠ []) (h2 : d2 ≠ [])
    (hd1 : ∀ c ∈ d1, c.isDigit = true) (hd2 : ∀ c ∈ d2, c.isDigit = true) :
    matchCounters ('[' :: (d1 ++ ':' :: (d2 ++ [']']))) = some (d1, d2) := by
  have t1 : takeDigits (d1 ++ ':' :: (d2 ++ [']'])) = (d1, ':' :: (d2 ++ [']'])) := by
    refine takeDigits_exact _ _ hd1 ?_
    intro c r hcr
    injection hcr with hc1 hc2
    rw [← hc1]
    decide
  have t2 : takeDigits (d2 ++ [']']) = (d2, [']']) := by
    refine takeDigits_exact _ _ hd2 ?_
    intro c r hcr
    injection hcr with hc1 hc2
    rw [← hc1]
    decide
  simp [matchCounters, t1, t2, h1, h2]

/-- C7: counter parsing succeeds exactly on tokens of the literal form
`[<digits>:<digits>]` whose two numbers fit in an unsigned 64-bit integer;
successfully parsed counters are always below `2^64` (non-negative by type);
and a failing token yields the `expected [packets:bytes]` error for its
chain-header or rule line (for a rule line, including when the token is
absent or malformed, via the unresolved-counters flag of the tokenizer). -/
theorem C7_theorem :
    (∀ s : String, (parseCounters s).isSome = true ↔ counterTokenSpec s) ∧
    (∀ (s : String) (pk bt : Nat), parseCounters s = some (pk, bt) →
      pk < U64 ∧ bt < U64) ∧
    (∀ (p : ParserState) (l f0 f1 f2 : String), goFields l = [f0, f1, f2] →
      parseCounters f2 = none →
      handleNewChain p l =
        { p with err := p.err ++ [⟨"expected [packets:bytes]", p.line, l⟩] }) ∧
    (∀ (p : ParserState) (l : String), (tokenizeLine l).countersOk = false →
      handleRule p l =
        some { p with err := p.err ++ [⟨"expected [packets:bytes]", p.line, l⟩] }) := by
  refine ⟨?_, ?_, ?_, ?_⟩
  · intro s
    constructor
    · intro h
      unfold parseCounters at h
      cases hm : matchCounters s.data with
      | none => rw [hm] at h; simp at h
      | some pr =>
        obtain ⟨d1, d2⟩ := pr
        rw [hm] at h
        dsimp only at h
        split_ifs at h with hb
        · obtain ⟨hcs, hn1, hn2, hd1, hd2⟩ := matchCounters_sound _ _ _ hm
          exact ⟨d1, d2, hn1, hn2, hd1, hd2, hcs, hb.1, hb.2⟩
        · simp at h
    · rintro ⟨d1, d2, hn1, hn2, hd1, hd2, hcs, hb1, hb2⟩
      unfold parseCounters
      rw [hcs, matchCounters_complete d1 d2 hn1 hn2 hd1 hd2]
      dsimp only
      rw [if_pos ⟨hb1, hb2⟩]
      rfl
  · intro s pk bt h
    unfold parseCounters at h
    cases hm : matchCounters s.data with
    | none => rw [hm] at h; cases h
    | some pr =>
      obtain ⟨d1, d2⟩ := pr
      rw [hm] at h
      dsimp only at h
      split_ifs at h with hb
      · injection h with hpair
        have e1 := congrArg Prod.fst hpair
        have e2 := congrArg Prod.snd hpair
        dsimp at e1 e2
        rw [← e1, ← e2]
        exact hb
  · intro p l f0 f1 f2 hf hc
    unfold handleNewChain
    rw [hf]
    dsimp only
    rw [hc]
  · intro p l h
    simp [handleRule, h]

/-- Witness for C7: `[10:500]` satisfies the spec-side grammar, and its
parsed counters are within the 64-bit bound. -/
theorem C7_witness :
    counterTokenSpec "[10:500]" ∧ (10 < U64 ∧ 500 < U64) :=
  ⟨(C7_theorem.1 "[10:500]").mp (by decide),
   C7_theorem.2.1 "[10:500]" 10 500 (by decide)⟩

end IptablesExporter
